import Mathlib

/-!
# AI for Games, Movement: the per-frame simulation of `src/main.cpp`

The development embeds the simulation logic of `main.cpp` (the `Player` and
`Bullet` records, `Player::seek`, `CalculateScreenWarp` and the systems run by
one iteration of the game loop) and proves the properties of the frame step.

Number model.  The C++ code computes in `float`.  Here every `float` is an
exact rational number: arithmetic is exact, there is no rounding, overflow,
infinity or NaN.  `M_PI` is the rational value of the `double` constant.
The functions of the C math library (`atan2`, `cos`, `sin`, `sqrt`) are not
rational functions; they are taken as a parameter `Libm`, and each theorem
states which property of them it relies on.
-/

namespace Movement

/-! ## Constants -/

/-- `constexpr int WINDOW_WIDTH = 1920u;` -/
def WINDOW_WIDTH : ℚ := 1920

/-- `constexpr int WINDOW_HEIGHT = 1080u;` -/
def WINDOW_HEIGHT : ℚ := 1080

/-- The `double` constant `M_PI` of `<cmath>`: `0x1.921fb54442d18p+1`. -/
def M_PI : ℚ := 884279719003555 / 281474976710656

/-! ## Vectors -/

/-- `sf::Vector2f` -/
structure Vector2f where
  x : ℚ
  y : ℚ
  deriving DecidableEq

namespace Vector2f

/-- `operator+` of `sf::Vector2f`. -/
def add (a b : Vector2f) : Vector2f := ⟨a.x + b.x, a.y + b.y⟩

/-- `operator-` of `sf::Vector2f`. -/
def sub (a b : Vector2f) : Vector2f := ⟨a.x - b.x, a.y - b.y⟩

/-- `operator*` of `sf::Vector2f` with a scalar on the right. -/
def scale (a : Vector2f) (k : ℚ) : Vector2f := ⟨a.x * k, a.y * k⟩

instance : Add Vector2f := ⟨add⟩
instance : Sub Vector2f := ⟨sub⟩
instance : HMul Vector2f ℚ Vector2f := ⟨scale⟩

end Vector2f

/-- The functions of the C math library and of SFML that the simulation calls
and that are not part of the repository. -/
structure Libm where
  /-- `atan2(y, x)` -/
  atan2 : ℚ → ℚ → ℚ
  /-- `std::cos` -/
  cos : ℚ → ℚ
  /-- `std::sin` -/
  sin : ℚ → ℚ
  /-- `std::sqrt` -/
  sqrt : ℚ → ℚ
  /-- `v.rotatedBy(sf::degrees(-90)).normalized()` -/
  strafeLeft : Vector2f → Vector2f
  /-- `v.rotatedBy(sf::degrees(90)).normalized()` -/
  strafeRight : Vector2f → Vector2f

/-- `sf::Vector2f::length()`: `std::sqrt(x * x + y * y)`. -/
def Vector2f.length (m : Libm) (v : Vector2f) : ℚ := m.sqrt (v.x * v.x + v.y * v.y)

/-! ## Screen wrap -/

/-- `void CalculateScreenWarp(sf::Vector2f &position)`: the four `if`
statements in source order, each reading the value left by the previous one. -/
def CalculateScreenWarp (position : Vector2f) : Vector2f :=
  let position := if position.x < 0 then { position with x := WINDOW_WIDTH } else position
  let position := if position.x > WINDOW_WIDTH then { position with x := 0 } else position
  let position := if position.y < 0 then { position with y := WINDOW_HEIGHT } else position
  let position := if position.y > WINDOW_HEIGHT then { position with y := 0 } else position
  position

/-- The per-axis reference function of the specification's `wrap` contract:
`v < 0 → limit`, `v > limit → 0`, otherwise `v`. -/
def wrapAxis (limit v : ℚ) : ℚ :=
  if v < 0 then limit else if v > limit then 0 else v

/-- The specification's `wrap(position, width, height)`: each axis on its own. -/
def wrap (position : Vector2f) (width height : ℚ) : Vector2f :=
  ⟨wrapAxis width position.x, wrapAxis height position.y⟩

/-! ## The player -/

/-- `struct Player`.  `orientation` has no initialiser in the source, so it has
no default here either and must be supplied. -/
structure Player where
  maxSpeed : ℚ := 2000
  rotationSpeed : ℚ := 5
  health : ℚ := 100
  rateOfFire : ℚ := 100
  shootCooldown : ℚ := 0
  position : Vector2f := ⟨0, 0⟩
  velocity : Vector2f := ⟨0, 0⟩
  acceleration : Vector2f := ⟨0, 0⟩
  orientation : ℚ
  forwardVector : Vector2f := ⟨0, 0⟩

/-- First normalisation loop of `Player::seek`:
`while (angleDifference > M_PI) angleDifference -= 2 * M_PI;` -/
def normalizeDown (angleDifference : ℚ) : ℚ :=
  if angleDifference > M_PI then normalizeDown (angleDifference - 2 * M_PI)
  else angleDifference
termination_by ⌈(angleDifference - M_PI) / (2 * M_PI)⌉.toNat
decreasing_by
  have hpi : (0 : ℚ) < 2 * M_PI := by norm_num [M_PI]
  have hpos : 0 < (angleDifference - M_PI) / (2 * M_PI) := div_pos (by linarith) hpi
  have hstep : (angleDifference - 2 * M_PI - M_PI) / (2 * M_PI)
      = (angleDifference - M_PI) / (2 * M_PI) - 1 := by
    field_simp
    ring
  rw [hstep, Int.ceil_sub_one]
  have := Int.ceil_pos.mpr hpos
  omega

/-- Second normalisation loop of `Player::seek`:
`while (angleDifference < -M_PI) angleDifference += 2 * M_PI;` -/
def normalizeUp (angleDifference : ℚ) : ℚ :=
  if angleDifference < -M_PI then normalizeUp (angleDifference + 2 * M_PI)
  else angleDifference
termination_by ⌈(-M_PI - angleDifference) / (2 * M_PI)⌉.toNat
decreasing_by
  have hpi : (0 : ℚ) < 2 * M_PI := by norm_num [M_PI]
  have hpos : 0 < (-M_PI - angleDifference) / (2 * M_PI) := div_pos (by linarith) hpi
  have hstep : (-M_PI - (angleDifference + 2 * M_PI)) / (2 * M_PI)
      = (-M_PI - angleDifference) / (2 * M_PI) - 1 := by
    field_simp
    ring
  rw [hstep, Int.ceil_sub_one]
  have := Int.ceil_pos.mpr hpos
  omega

/-- The two normalisation loops of `Player::seek`, in source order. -/
def normalizeAngle (angleDifference : ℚ) : ℚ :=
  normalizeUp (normalizeDown angleDifference)

/-- The value of the local `angleDifference` of `Player::seek` when the
orientation is updated (source lines 46-57). -/
def Player.angleDifference (m : Libm) (p : Player) (targetPosition : Vector2f) : ℚ :=
  let direction := targetPosition - p.position
  let targetAngle := m.atan2 direction.y direction.x
  normalizeAngle (targetAngle - p.orientation)

/-- `void Player::seek(const sf::Vector2f targetPosition, const float delta)` -/
def Player.seek (m : Libm) (p : Player) (targetPosition : Vector2f) (delta : ℚ) : Player :=
  let direction := targetPosition - p.position
  let angleDifference := p.angleDifference m targetPosition
  let orientation := p.orientation + angleDifference * p.rotationSpeed * delta
  let p := { p with
    orientation := orientation
    forwardVector := ⟨m.cos orientation, m.sin orientation⟩ }
  if direction.length m < 3 then p
  else
    let velocity := p.velocity + p.acceleration * delta
    { p with
      velocity := velocity
      position := p.position + velocity * delta
      acceleration := ⟨0, 0⟩ }

/-! ## Bullets -/

/-- `struct Bullet` -/
structure Bullet where
  maxSpeed : ℚ := 2000
  damage : ℚ := 100
  position : Vector2f := ⟨0, 0⟩
  velocity : Vector2f := ⟨0, 0⟩
  orientation : Vector2f := ⟨0, 0⟩
  rotation : Vector2f := ⟨0, 0⟩
  toRemove : Bool := false
  deriving DecidableEq

/-- Body of the bullet loop (source lines 234-240): advance, then flag when the
bullet left the screen. -/
def advanceBullet (delta : ℚ) (bullet : Bullet) : Bullet :=
  let bullet := { bullet with position := bullet.position + bullet.velocity * delta }
  if bullet.position.x < 0 || bullet.position.x > WINDOW_WIDTH || bullet.position.y < 0 ||
      bullet.position.y > WINDOW_HEIGHT then
    { bullet with toRemove := true }
  else bullet

/-- Bullet system (source lines 233-246): the loop over all bullets followed by
the erase / `remove_if` of the flagged ones, which keeps the order of the rest. -/
def bulletSystem (delta : ℚ) (bullets : List Bullet) : List Bullet :=
  (bullets.map (advanceBullet delta)).filter (fun bullet => !bullet.toRemove)

/-- The closed screen rectangle `[0, 1920] × [0, 1080]` in which the
specification lets a projectile live. -/
def onScreen (v : Vector2f) : Prop := 0 ≤ v.x ∧ v.x ≤ 1920 ∧ 0 ≤ v.y ∧ v.y ≤ 1080

instance : DecidablePred onScreen := fun v => by
  unfold onScreen
  infer_instance

/-! ## A rational math library for worked examples -/

/-- A rational stand-in for the math library, used to run the model on
concrete inputs.  `atan2` is exact on the four half-axes (in units of `M_PI`),
`cos` and `sin` are the half-angle rational parametrisation of the unit circle
(exact at `0`, always of norm one), `sqrt` is the floor square root (exact on
squares), and the strafe directions are the exact quarter turns of a unit
vector. -/
def sampleLibm : Libm where
  atan2 y x :=
    if y = 0 then (if x < 0 then M_PI else 0)
    else if 0 < y then M_PI / 2 else -(M_PI / 2)
  cos t := (1 - (t / 2) * (t / 2)) / (1 + (t / 2) * (t / 2))
  sin t := t / (1 + (t / 2) * (t / 2))
  sqrt x := (Nat.sqrt (x.num.toNat * x.den) : ℚ) / x.den
  strafeLeft v := ⟨v.y, -v.x⟩
  strafeRight v := ⟨-v.y, v.x⟩

/-! ## Theorems -/

theorem CalculateScreenWarp_apply (x y : ℚ) : CalculateScreenWarp ⟨x, y⟩ =
    ⟨if x < 0 then 1920 else if x > 1920 then 0 else x,
     if y < 0 then 1080 else if y > 1080 then 0 else y⟩ := by
  unfold CalculateScreenWarp
  simp only [WINDOW_WIDTH, WINDOW_HEIGHT]
  by_cases hx : x < 0 <;> by_cases hx2 : x > 1920 <;>
    by_cases hy : y < 0 <;> by_cases hy2 : y > 1080 <;>
    simp [hx, hx2, hy, hy2]

theorem CalculateScreenWarp_of_mem (p : Vector2f) (hx0 : 0 ≤ p.x) (hx1 : p.x ≤ 1920)
    (hy0 : 0 ≤ p.y) (hy1 : p.y ≤ 1080) : CalculateScreenWarp p = p := by
  obtain ⟨x, y⟩ := p
  simp only at hx0 hx1 hy0 hy1
  rw [CalculateScreenWarp_apply]
  simp [not_lt.mpr hx0, not_lt.mpr hx1, not_lt.mpr hy0, not_lt.mpr hy1]

/-- C1: `CalculateScreenWarp` is the per-axis reference wrap with `W = 1920`,
`H = 1080`: on each axis, independently of the other, a negative coordinate
becomes the limit, a coordinate above the limit becomes 0, and any other
(0 and the limit included) is kept.  So for `0 ≤ y ≤ H` the point `(-1, y)`
goes to `(W, y)`, `(W, y)` stays and `(W + 1, y)` goes to `(0, y)`, and every
position inside the closed screen rectangle is returned unchanged. -/
theorem CalculateScreenWarp_eq_wrap :
    (∀ p : Vector2f, CalculateScreenWarp p = wrap p 1920 1080) ∧
    (∀ x y : ℚ, CalculateScreenWarp ⟨x, y⟩ =
      ⟨if x < 0 then 1920 else if x > 1920 then 0 else x,
       if y < 0 then 1080 else if y > 1080 then 0 else y⟩) ∧
    (∀ y : ℚ, 0 ≤ y → y ≤ 1080 →
      CalculateScreenWarp ⟨-1, y⟩ = ⟨1920, y⟩ ∧
      CalculateScreenWarp ⟨1920, y⟩ = ⟨1920, y⟩ ∧
      CalculateScreenWarp ⟨1920 + 1, y⟩ = ⟨0, y⟩) ∧
    (∀ p : Vector2f, 0 ≤ p.x → p.x ≤ 1920 → 0 ≤ p.y → p.y ≤ 1080 →
      CalculateScreenWarp p = p) := by
  refine ⟨?_, CalculateScreenWarp_apply, ?_, CalculateScreenWarp_of_mem⟩
  · rintro ⟨x, y⟩
    rw [CalculateScreenWarp_apply]
    simp [wrap, wrapAxis]
  · intro y h0 h1
    have hy : ¬ y < 0 := not_lt.mpr h0
    have hy2 : ¬ y > 1080 := not_lt.mpr h1
    refine ⟨?_, ?_, ?_⟩
    · rw [CalculateScreenWarp_apply]; simp [hy, hy2]
    · rw [CalculateScreenWarp_apply]; simp [hy, hy2]
    · rw [CalculateScreenWarp_apply]; simp [hy, hy2]; norm_num

/-- Witness of C1: the three boundary cases on the row `y = 540`. -/
theorem CalculateScreenWarp_eq_wrap_witness :
    CalculateScreenWarp ⟨-1, 540⟩ = ⟨1920, 540⟩ ∧
    CalculateScreenWarp ⟨1920, 540⟩ = ⟨1920, 540⟩ ∧
    CalculateScreenWarp ⟨1920 + 1, 540⟩ = ⟨0, 540⟩ :=
  CalculateScreenWarp_eq_wrap.2.2.1 540 (by norm_num) (by norm_num)

/-! ### Angle normalisation -/

theorem sampleLibm_sqrt_sq (n : ℕ) : sampleLibm.sqrt ((n : ℚ) * n) = n := by
  have h : ((n : ℚ) * n) = ((n * n : ℕ) : ℚ) := by push_cast; ring
  simp only [sampleLibm]
  rw [h, Rat.num_natCast, Rat.den_natCast, Int.toNat_natCast]
  simp [Nat.sqrt_eq]

/-- C8: translational integration of `Player::seek`.  When the length of
`targetPosition - position` is at least 3, the new velocity is
`velocity + acceleration * delta`, the new position is
`position + (new velocity) * delta`, and the acceleration is reset to zero. -/
theorem seek_integration (m : Libm) (p : Player) (target : Vector2f) (delta : ℚ)
    (h : 3 ≤ (target - p.position).length m) :
    (p.seek m target delta).velocity = p.velocity + p.acceleration * delta ∧
    (p.seek m target delta).position
      = p.position + (p.velocity + p.acceleration * delta) * delta ∧
    (p.seek m target delta).position = p.position + (p.seek m target delta).velocity * delta ∧
    (p.seek m target delta).acceleration = ⟨0, 0⟩ := by
  have hn : ¬ (target - p.position).length m < 3 := not_lt.mpr h
  refine ⟨?_, ?_, ?_, ?_⟩ <;>
    · unfold Player.seek
      simp only
      rw [if_neg hn]

/-- Witness of C8: a moving player 1000 units to the left of its target. -/
theorem seek_integration_witness :
    (({ orientation := 1, position := ⟨960, 540⟩, velocity := ⟨3, 4⟩,
        acceleration := ⟨144, 288⟩ } : Player).seek sampleLibm ⟨1960, 540⟩
      (1 / 144)).acceleration = ⟨0, 0⟩ :=
  (seek_integration sampleLibm
    { orientation := 1, position := ⟨960, 540⟩, velocity := ⟨3, 4⟩, acceleration := ⟨144, 288⟩ }
    ⟨1960, 540⟩ (1 / 144)
    (by
      have h : (⟨1960, 540⟩ - ⟨960, 540⟩ : Vector2f) = ⟨1000, 0⟩ := by
        show Vector2f.sub _ _ = _
        norm_num [Vector2f.sub]
      have h2 : ((1000 : ℚ) * 1000 + 0 * 0) = ((1000 : ℕ) : ℚ) * (1000 : ℕ) := by norm_num
      show 3 ≤ Vector2f.length sampleLibm (⟨1960, 540⟩ - ⟨960, 540⟩)
      rw [h, Vector2f.length, h2, sampleLibm_sqrt_sq]
      norm_num)).2.2.2

theorem advanceBullet_of_onScreen (delta : ℚ) (b : Bullet)
    (h : onScreen (b.position + b.velocity * delta)) :
    advanceBullet delta b = { b with position := b.position + b.velocity * delta } := by
  obtain ⟨h1, h2, h3, h4⟩ := h
  unfold advanceBullet
  simp only [WINDOW_WIDTH, WINDOW_HEIGHT]
  rw [if_neg]
  simp [not_lt.mpr h1, not_lt.mpr h2, not_lt.mpr h3, not_lt.mpr h4]

theorem advanceBullet_of_not_onScreen (delta : ℚ) (b : Bullet)
    (h : ¬ onScreen (b.position + b.velocity * delta)) :
    advanceBullet delta b
      = { b with position := b.position + b.velocity * delta, toRemove := true } := by
  unfold advanceBullet
  simp only [WINDOW_WIDTH, WINDOW_HEIGHT]
  rw [if_pos]
  simp only [Bool.or_eq_true, decide_eq_true_eq]
  by_contra hc
  push_neg at hc
  exact h ⟨hc.1.1.1, hc.1.1.2, hc.1.2, hc.2⟩

theorem bulletSystem_cons (delta : ℚ) (b : Bullet) (bs : List Bullet) :
    bulletSystem delta (b :: bs)
      = if (advanceBullet delta b).toRemove then bulletSystem delta bs
        else advanceBullet delta b :: bulletSystem delta bs := by
  unfold bulletSystem
  rw [List.map_cons, List.filter_cons]
  cases (advanceBullet delta b).toRemove <;> simp

/-- C7: cull and prune.  On a collection without flagged bullets, the bullet
system of a frame keeps exactly the bullets whose advanced position
`position + velocity * delta` lies in the closed rectangle
`[0, 1920] × [0, 1080]`, each with that advanced position and in the same
order; so no survivor has `x < 0`, `x > 1920`, `y < 0` or `y > 1080`, a bullet
exactly on the boundary survives, and every survivor has `toRemove = false`. -/
theorem bulletSystem_cull (delta : ℚ) (bullets : List Bullet)
    (h : ∀ b ∈ bullets, b.toRemove = false) :
    bulletSystem delta bullets
      = (bullets.filter (fun b => decide (onScreen (b.position + b.velocity * delta)))).map
          (fun b => { b with position := b.position + b.velocity * delta }) ∧
    (∀ b ∈ bulletSystem delta bullets, b.toRemove = false ∧ onScreen b.position ∧
      ¬ (b.position.x < 0 ∨ b.position.x > 1920 ∨ b.position.y < 0 ∨ b.position.y > 1080)) ∧
    (∀ b ∈ bullets, onScreen (b.position + b.velocity * delta) →
      { b with position := b.position + b.velocity * delta } ∈ bulletSystem delta bullets) := by
  have heq : bulletSystem delta bullets
      = (bullets.filter (fun b => decide (onScreen (b.position + b.velocity * delta)))).map
          (fun b => { b with position := b.position + b.velocity * delta }) := by
    induction bullets with
    | nil => rfl
    | cons b bs ih =>
      have hb : b.toRemove = false := h b (List.mem_cons_self _ _)
      have ih2 := ih (fun c hc => h c (List.mem_cons_of_mem _ hc))
      rw [bulletSystem_cons, List.filter_cons]
      by_cases hon : onScreen (b.position + b.velocity * delta)
      · rw [advanceBullet_of_onScreen delta b hon]
        simp only [hb, hon, decide_True, if_true, List.map_cons, ih2]
        simp
      · rw [advanceBullet_of_not_onScreen delta b hon]
        simp only [hon, decide_False, if_true, ih2]
        simp
  refine ⟨heq, ?_, ?_⟩
  · intro b hb
    rw [heq, List.mem_map] at hb
    obtain ⟨c, hc, rfl⟩ := hb
    rw [List.mem_filter] at hc
    have hon : onScreen (c.position + c.velocity * delta) := of_decide_eq_true hc.2
    refine ⟨h c hc.1, hon, ?_⟩
    obtain ⟨h1, h2, h3, h4⟩ := hon
    simp only [not_or, not_lt]
    exact ⟨h1, h2, h3, h4⟩
  · intro b hb hon
    rw [heq, List.mem_map]
    exact ⟨b, List.mem_filter.mpr ⟨hb, decide_eq_true hon⟩, rfl⟩

/-- Witness of C7: one bullet that lands exactly on the right edge and one that
leaves the screen; only the first is kept. -/
theorem bulletSystem_cull_witness :
    bulletSystem 1 [{ position := ⟨1900, 10⟩, velocity := ⟨20, 0⟩ },
        { position := ⟨1900, 10⟩, velocity := ⟨21, 0⟩ }]
      = [{ position := ⟨1920, 10⟩, velocity := ⟨20, 0⟩ }] := by
  have hv1 : ((⟨1900, 10⟩ : Vector2f) + (⟨20, 0⟩ : Vector2f) * (1 : ℚ)) = ⟨1920, 10⟩ := by
    show Vector2f.add _ (Vector2f.scale _ _) = _
    norm_num [Vector2f.add, Vector2f.scale]
  have hv2 : ((⟨1900, 10⟩ : Vector2f) + (⟨21, 0⟩ : Vector2f) * (1 : ℚ)) = ⟨1921, 10⟩ := by
    show Vector2f.add _ (Vector2f.scale _ _) = _
    norm_num [Vector2f.add, Vector2f.scale]
  have h := (bulletSystem_cull 1 [{ position := ⟨1900, 10⟩, velocity := ⟨20, 0⟩ },
        { position := ⟨1900, 10⟩, velocity := ⟨21, 0⟩ }]
      (by intro b hb; simp at hb; rcases hb with rfl | rfl <;> rfl)).1
  rw [h]
  have on1 : onScreen ⟨1920, 10⟩ := by unfold onScreen; norm_num
  have on2 : ¬ onScreen ⟨1921, 10⟩ := by unfold onScreen; norm_num
  simp [List.filter_cons, hv1, hv2, on1, on2]

theorem vec_sub_def (a b : Vector2f) : a - b = ⟨a.x - b.x, a.y - b.y⟩ := rfl

end Movement
